import Mathlib

/-!
Verification of the context-scope algebra and command pipeline of the koishi
repository.  Definitions are shallow embeddings of the TypeScript sources in
`src/packages/koishi-core/src/context.ts`, `src/packages/koishi-core/src/command.ts`
and the dialogue plugin file `src/unnamed/part_000`.  JavaScript strings are
modelled as `List Char`, JavaScript numbers used as ids as `Nat`, and nullable
values as `Option`.
-/

/-- JavaScript strings, modelled as lists of characters. -/
abbrev JStr := List Char

/-- Modelled from the spec: the `union` primitive of `koishi-utils` (the package
is not under `src/`).  "All set operations (union/intersection/difference over id
collections) treat ids as an unordered set; result ordering is irrelevant." -/
def KU.union (a b : List Nat) : List Nat :=
  a ++ b.filter (fun x => !a.contains x)

/-- Modelled from the spec: the `intersection` primitive of `koishi-utils`. -/
def KU.intersection (a b : List Nat) : List Nat :=
  a.filter (fun x => b.contains x)

/-- Modelled from the spec: the `difference` primitive of `koishi-utils`
(elements of `a` that are not in `b`, as used in the operation table). -/
def KU.difference (a b : List Nat) : List Nat :=
  a.filter (fun x => !b.contains x)

/-- Modelled from the spec: the `contain` primitive of `koishi-utils`.  The
spec's containment semantics ("include-in-include requires the first scope's
allow-list be a subset of the second's", "an exclude-scope is contained in
another exclude-scope iff the first's deny-list is a superset of the second's",
both checked through the call sites `contain(include1, include2)` and
`contain(exclude2, exclude1)` quoted from the source) force the primitive to
test that every id of the second argument is an element of the first. -/
def KU.contain (a b : List Nat) : Bool :=
  b.all (fun x => a.contains x)

/-- Definition following the claim's words only (to be compared with
`KU.contain`): "the primitive contain(a, b) over id collections holds iff
every id of a is in b". -/
def KU.containClaim (a b : List Nat) : Bool :=
  a.all (fun x => b.contains x)

/-- One per-identity-type scope set: the pair `[include, exclude]` from
`context.ts` (`type Subscope = [number[], number[]]`, where either side may be
`null`). -/
abbrev Subscope := Option (List Nat) × Option (List Nat)

/-- The three identity types of `contextTypes` (modelled from the spec's
glossary and the regular expression in `ContextScope.parse`; `meta.ts` is not
under `src/`). -/
inductive CtxType where
  | user
  | group
  | discuss
deriving DecidableEq

/-- A context scope: one `Subscope` per identity type, in the `contextTypes`
order user, group, discuss (`export type ContextScope = Subscope[]` in the
source, always of length 3). -/
structure ContextScope where
  user : Subscope
  group : Subscope
  discuss : Subscope
deriving DecidableEq

/-- Indexing a scope by identity type (`scope[contextTypes[type]]`). -/
def ContextScope.get (sc : ContextScope) : CtxType → Subscope
  | .user => sc.user
  | .group => sc.group
  | .discuss => sc.discuss

/-- Assigning the subscope of one identity type
(`scope[contextTypes[type]] = ...` in `ContextScope.parse`). -/
def ContextScope.set (sc : ContextScope) : CtxType → Subscope → ContextScope
  | .user, s => { sc with user := s }
  | .group, s => { sc with group := s }
  | .discuss, s => { sc with discuss := s }

/-- The noop subscope `[[], null]`. -/
def noopSub : Subscope := (some [], none)

/-- Source constant `noopScope: ContextScope = [[[], null], [[], null], [[], null]]`. -/
def noopScope : ContextScope := ⟨noopSub, noopSub, noopSub⟩

/-- Per-type body of `Context.inverse`:
`include ? [null, include.slice()] : [exclude.slice(), []]`.  When `include`
is null the original returns the pair of the old exclude list and an empty
(non-null) array. -/
def Subscope.inverse (s : Subscope) : Subscope :=
  match s.1 with
  | some inc => (none, some inc)
  | none => (some (s.2.getD []), some [])

/-- Per-type body of `Context.plus`. -/
def Subscope.plus (s1 s2 : Subscope) : Subscope :=
  match s1.1, s2.1 with
  | some i1, some i2 => (some (KU.union i1 i2), none)
  | some i1, none => (none, some (KU.difference (s2.2.getD []) i1))
  | none, some i2 => (none, some (KU.difference (s1.2.getD []) i2))
  | none, none => (none, some (KU.intersection (s1.2.getD []) (s2.2.getD [])))

/-- Per-type body of `Context.minus`. -/
def Subscope.minus (s1 s2 : Subscope) : Subscope :=
  match s1.1, s2.1 with
  | some i1, some i2 => (some (KU.difference i1 i2), none)
  | some i1, none => (some (KU.intersection i1 (s2.2.getD [])), none)
  | none, some i2 => (none, some (KU.union i2 (s1.2.getD [])))
  | none, none => (some (KU.difference (s2.2.getD []) (s1.2.getD [])), none)

/-- Per-type body of `Context.intersect`. -/
def Subscope.intersect (s1 s2 : Subscope) : Subscope :=
  match s1.1, s2.1 with
  | some i1, some i2 => (some (KU.intersection i1 i2), none)
  | some i1, none => (some (KU.difference i1 (s2.2.getD [])), none)
  | none, some i2 => (some (KU.difference i2 (s1.2.getD [])), none)
  | none, none => (none, some (KU.union (s1.2.getD []) (s2.2.getD [])))

/-- Per-type body of `Context.match`:
`include ? include.includes(id) : !exclude.includes(id)`. -/
def Subscope.matchId (s : Subscope) (id : Nat) : Bool :=
  match s.1 with
  | some inc => inc.contains id
  | none => !((s.2.getD []).contains id)

/-- Per-type body of `Context.contain` (the callback of `this._scope.every`). -/
def Subscope.containSub (s1 s2 : Subscope) : Bool :=
  match s1.1, s2.1 with
  | some i1, some i2 => KU.contain i1 i2
  | some _, none => false
  | none, some i2 => (KU.intersection i2 (s1.2.getD [])).length == 0
  | none, none => KU.contain (s2.2.getD []) (s1.2.getD [])

/-- Source method `Context.inverse`, acting pointwise on the three identity types. -/
def ContextScope.inverse (sc : ContextScope) : ContextScope :=
  ⟨sc.user.inverse, sc.group.inverse, sc.discuss.inverse⟩

/-- Source method `Context.plus`. -/
def ContextScope.plus (a b : ContextScope) : ContextScope :=
  ⟨a.user.plus b.user, a.group.plus b.group, a.discuss.plus b.discuss⟩

/-- Source method `Context.minus`. -/
def ContextScope.minus (a b : ContextScope) : ContextScope :=
  ⟨a.user.minus b.user, a.group.minus b.group, a.discuss.minus b.discuss⟩

/-- Source method `Context.intersect`. -/
def ContextScope.intersect (a b : ContextScope) : ContextScope :=
  ⟨a.user.intersect b.user, a.group.intersect b.group, a.discuss.intersect b.discuss⟩

/-- Source method `Context.match` for an event identity (type, id). -/
def ContextScope.matchId (sc : ContextScope) (ty : CtxType) (id : Nat) : Bool :=
  (sc.get ty).matchId id

/-- Source method `Context.contain` (`this._scope.every(...)`). -/
def ContextScope.contain (a b : ContextScope) : Bool :=
  a.user.containSub b.user && a.group.containSub b.group && a.discuss.containSub b.discuss

/-- Variant of `Context.contain` with the claim's reading of the primitive substituted in
the same call positions (compare `Subscope.containSub`). -/
def Subscope.containSubClaim (s1 s2 : Subscope) : Bool :=
  match s1.1, s2.1 with
  | some i1, some i2 => KU.containClaim i1 i2
  | some _, none => false
  | none, some i2 => (KU.intersection i2 (s1.2.getD [])).length == 0
  | none, none => KU.containClaim (s2.2.getD []) (s1.2.getD [])

/-- Variant of `Context.contain` under the claim's primitive. -/
def ContextScope.containUnderClaim (a b : ContextScope) : Bool :=
  a.user.containSubClaim b.user && a.group.containSubClaim b.group &&
    a.discuss.containSubClaim b.discuss

/-- Decimal digit characters, as produced by the JavaScript number-to-string
conversion of the ids in `idList.join(',')`. -/
def digitChar : Nat → Char
  | 0 => '0'
  | 1 => '1'
  | 2 => '2'
  | 3 => '3'
  | 4 => '4'
  | 5 => '5'
  | 6 => '6'
  | 7 => '7'
  | 8 => '8'
  | _ => '9'

/-- Fuel-driven accumulator loop for rendering a natural in decimal. -/
def natCharsAux : Nat → Nat → JStr → JStr
  | 0, _, acc => acc
  | f + 1, n, acc =>
    if n < 10 then digitChar n :: acc
    else natCharsAux f (n / 10) (digitChar (n % 10) :: acc)

/-- JavaScript decimal rendering of a natural number id. -/
def natChars (n : Nat) : JStr := natCharsAux (n + 1) n []

/-- Value of one decimal digit character. -/
def digitVal (c : Char) : Option Nat :=
  if c.isDigit then some (c.toNat - 48) else none

/-- Accumulator loop for reading a decimal numeral. -/
def parseDigitsAux : JStr → Nat → Option Nat
  | [], acc => some acc
  | c :: cs, acc =>
    match digitVal c with
    | some d => parseDigitsAux cs (10 * acc + d)
    | none => none

/-- Reading a nonempty decimal numeral. -/
def parseDigits (s : JStr) : Option Nat :=
  match s with
  | [] => none
  | _ => parseDigitsAux s 0

/-- JavaScript number coercion `+n` as applied by `ContextScope.parse` to the
pieces of the id list.  On the nonempty digit strings produced by `stringify`
this is decimal parsing; any other string yields NaN in JavaScript, a case no
claim exercises (mapped to 0 here). -/
def jsNumber (s : JStr) : Nat := (parseDigits s).getD 0

/-- The serialized name of an identity type followed by the colon separator
(`${type}:` in `ContextScope.stringify`). -/
def CtxType.tag : CtxType → JStr
  | .user => ['u', 's', 'e', 'r', ':']
  | .group => ['g', 'r', 'o', 'u', 'p', ':']
  | .discuss => ['d', 'i', 's', 'c', 'u', 's', 's', ':']

/-- One segment of `ContextScope.stringify`:
`const sign = include ? '+' : '-'; const idList = include || exclude;`
rendered as `${sign}${type}:${idList.join(',')}`. -/
def Subscope.segment (s : Subscope) (ty : CtxType) : JStr :=
  match s.1 with
  | some inc => '+' :: (ty.tag ++ [','].intercalate (inc.map natChars))
  | none => '-' :: (ty.tag ++ [','].intercalate ((s.2.getD []).map natChars))

/-- Source function `ContextScope.stringify`: render each identity type's segment, drop the
falsy (empty) strings, and join with semicolons. -/
def ContextScope.stringify (sc : ContextScope) : JStr :=
  [';'].intercalate
    (([sc.user.segment .user, sc.group.segment .group,
       sc.discuss.segment .discuss]).filter (fun a => !a.isEmpty))

/-- Modelled from the spec: a Context's derived string identifier is the
canonical serialized form of its scope (`_createContext` of `app.ts` is not
under `src/`; the spec calls it "a derived string identifier ... for
serialization to/from a canonical text form"). -/
def ContextScope.identifier (sc : ContextScope) : JStr := sc.stringify

/-- Source constant `noopIdentifier = ContextScope.stringify(noopScope)`. -/
def noopIdentifier : JStr := noopScope.stringify

/-- The `(user|group|discuss):` alternation of the parsing regular expression
`^([+-])(user|group|discuss):(.+)$`. -/
def stripType : JStr → Option (CtxType × JStr)
  | 'u' :: 's' :: 'e' :: 'r' :: ':' :: rest => some (.user, rest)
  | 'g' :: 'r' :: 'o' :: 'u' :: 'p' :: ':' :: rest => some (.group, rest)
  | 'd' :: 'i' :: 's' :: 'c' :: 'u' :: 's' :: 's' :: ':' :: rest => some (.discuss, rest)
  | _ => none

/-- Type and id list of one segment body (everything after the sign): the
`(.+)$` group must be nonempty, then it is split on commas and coerced
numerically (`list.split(',').map(n => +n)`).  The regular expression's dot
does not match line terminators in JavaScript; the inputs arising in the
claims contain none. -/
def parseTyped (rest : JStr) : Option (CtxType × List Nat) :=
  match stripType rest with
  | some (ty, body) =>
    if body = [] then none
    else some (ty, (body.splitOn ',').map jsNumber)
  | none => none

/-- One segment of `ContextScope.parse`: sign, type, id list, or a format
failure (`throw new Error(errors.INVALID_IDENTIFIER)` is modelled as `none`). -/
def parseSegment (seg : JStr) : Option (CtxType × Subscope) :=
  match seg with
  | '+' :: rest => (parseTyped rest).map (fun p => (p.1, (some p.2, none)))
  | '-' :: rest => (parseTyped rest).map (fun p => (p.1, (none, some p.2)))
  | _ => none

/-- Source function `ContextScope.parse`: split the identifier on semicolons, parse each
segment, and assign it into a copy of `noopScope`; the first malformed
segment aborts the whole parse. -/
def ContextScope.parse (s : JStr) : Option ContextScope :=
  (s.splitOn ';').foldlM
    (fun sc seg => (parseSegment seg).map (fun ts => sc.set ts.1 ts.2)) noopScope

/-- The id list a subscope renders (`include || exclude`). -/
def Subscope.renderList (s : Subscope) : List Nat :=
  match s.1 with
  | some inc => inc
  | none => s.2.getD []

/-- The canonical subscope produced by re-parsing a rendered segment. -/
def Subscope.canon (s : Subscope) : Subscope :=
  match s.1 with
  | some inc => (some inc, none)
  | none => (none, some (s.2.getD []))

/-- The canonical scope produced by re-parsing a rendered identifier. -/
def ContextScope.canon (sc : ContextScope) : ContextScope :=
  ⟨sc.user.canon, sc.group.canon, sc.discuss.canon⟩

/-- A subscope satisfying the spec's data-model invariant: exactly one of
include and exclude is non-null. -/
def Subscope.exactlyOne (s : Subscope) : Prop :=
  (s.1 ≠ none ∧ s.2 = none) ∨ (s.1 = none ∧ s.2 ≠ none)

instance (s : Subscope) : Decidable s.exactlyOne := by
  unfold Subscope.exactlyOne
  infer_instance

/-- A node of the command tree: the fields of class `Command` that command
registration reads or writes (`name`, `context`, `parent`, `children`).
The declaration string and config record are carried by the original but do
not affect the walk. -/
structure Cmd where
  name : JStr
  context : ContextScope
  parent : Option Nat
  children : List Nat
deriving DecidableEq

/-- Registration state of the application: `app._commands` (nodes by creation
index, a node is referenced by its index) and `app._commandMap` (lowercased
name to node). -/
structure AppState where
  cmds : List Cmd
  commandMap : List (JStr × Nat)
deriving DecidableEq

/-- Lookup `this.app._commandMap[name]`. -/
def lookupName (st : AppState) (name : JStr) : Option Nat :=
  (st.commandMap.find? (fun p => p.1 == name)).map Prod.snd

/-- Registration failures (`errors.INVALID_SUBCOMMAND`, `errors.INVALID_CONTEXT`,
`errors.EXPECT_COMMAND_NAME`); `crash` stands for a JavaScript TypeError such
as reading `parent.name` with no parent.  Every failure carries the
application state at the moment of the throw, since mutations made by earlier
segments persist. -/
inductive RegErr where
  | invalidSubcommand
  | invalidContext
  | expectName
  | crash
deriving DecidableEq

/-- In-place update of one node. -/
def modifyCmd (cmds : List Cmd) (i : Nat) (f : Cmd → Cmd) : List Cmd :=
  match cmds.get? i with
  | some c => cmds.set i (f c)
  | none => cmds

/-- Adopting an existing parentless node:
`command.parent = parent; parent.children.push(command)`. -/
def adopt (st : AppState) (p cid : Nat) : AppState :=
  { st with
    cmds := modifyCmd (modifyCmd st.cmds cid (fun c => { c with parent := some p }))
      p (fun c => { c with children := c.children ++ [cid] }) }

/-- State after `command = new Command(name, declaration, context)` followed by
linking to the parent when present: the node is appended to `app._commands`,
registered in `app._commandMap` under its name, and pushed onto the parent's
children. -/
def linkNew (st : AppState) (parent : Option Nat) (name : JStr) (ctx2 : ContextScope) :
    AppState :=
  let cid := st.cmds.length
  let st2 : AppState :=
    { cmds := st.cmds ++ [{ name := name, context := ctx2, parent := parent, children := [] }],
      commandMap := st.commandMap ++ [(name, cid)] }
  match parent with
  | some p =>
    { st2 with cmds := modifyCmd st2.cmds p (fun c => { c with children := c.children ++ [cid] }) }
  | none => st2

/-- Name computed for one path segment:
`code === 46 ? parent.name + segment : code === 47 ? segment.slice(1) : segment`
(46 is the dot, 47 the slash; a dot segment with no parent dereferences null,
modelled as `none`). -/
def segmentName (st : AppState) (parent : Option Nat) (seg : JStr) : Option JStr :=
  match seg with
  | [] => some []
  | c :: _ =>
    if c = '.' then
      match parent with
      | some p => (st.cmds.get? p).map (fun (cp : Cmd) => cp.name ++ seg)
      | none => none
    else if c = '/' then some (seg.drop 1)
    else some seg

/-- The body of the `forEach` of `Context.command` for one segment, given the
calling context `cc` and the running parent. -/
def commandStep (cc : ContextScope) (st : AppState) (parent : Option Nat) (seg : JStr) :
    Except (RegErr × AppState) (AppState × Nat) :=
  match segmentName st parent seg with
  | none => .error (.crash, st)
  | some name =>
    match lookupName st name with
    | some cid =>
      match parent with
      | none => .ok (st, cid)
      | some p =>
        if cid = p then .error (.invalidSubcommand, st)
        else
          match st.cmds.get? cid, st.cmds.get? p with
          | some cmdc, some cmdp =>
            match cmdc.parent with
            | some q => if q ≠ p then .error (.invalidSubcommand, st) else .ok (st, cid)
            | none =>
              if cmdp.context.contain cmdc.context then .ok (adopt st p cid, cid)
              else .error (.invalidContext, st)
          | _, _ => .error (.crash, st)
    | none =>
      match (match parent with
             | some p => (st.cmds.get? p).map (fun (cp : Cmd) => cc.intersect cp.context)
             | none => some cc) with
      | none => .error (.crash, st)
      | some ctx2 =>
        if ctx2.identifier = noopIdentifier then .error (.invalidContext, st)
        else if name = [] then .error (.expectName, st)
        else .ok (linkNew st parent name ctx2, st.cmds.length)

/-- Is a character one of the path separators of `split(/(?=[\\./])/)`? -/
def isPathSep (c : Char) : Bool := c = '\\' || c = '.' || c = '/'

/-- JavaScript lookahead split on path separators: a separator starts a new
piece unless it sits at the start of the current piece (zero-width match at
the current position). -/
def splitPathAux : JStr → JStr → List JStr
  | [], acc => [acc.reverse]
  | c :: cs, acc =>
    if isPathSep c && !acc.isEmpty then acc.reverse :: splitPathAux cs [c]
    else splitPathAux cs (c :: acc)

/-- Split `path.toLowerCase().split(/(?=[\\./])/)` without the lowercasing. -/
def splitPath (s : JStr) : List JStr := splitPathAux s []

/-- The whole walk of `Context.command` over a path: lowercase, split, then
process each segment with `commandStep`, threading the state and parent; a
throw aborts the walk but keeps the mutations made so far. -/
def commandPath (cc : ContextScope) (st : AppState) (path : JStr) :
    Except (RegErr × AppState) (AppState × Option Nat) :=
  (splitPath (path.map Char.toLower)).foldl
    (fun acc seg =>
      match acc with
      | .error e => .error e
      | .ok (st1, par) =>
        match commandStep cc st1 par seg with
        | .error e => .error e
        | .ok (st2, cid) => .ok (st2, some cid))
    (.ok (st, none))

/-- Source method `Context.command` on a raw name: the path is everything before the first
space (`rawName.split(' ', 1)`); the rest is the argument declaration, which
does not affect the walk. -/
def commandRegister (cc : ContextScope) (st : AppState) (raw : JStr) :
    Except (RegErr × AppState) (AppState × Option Nat) :=
  commandPath cc st (raw.takeWhile (fun c => c ≠ ' '))

instance {e a : Type} [DecidableEq e] [DecidableEq a] : DecidableEq (Except e a) := by
  intro x y
  cases x <;> cases y <;>
    first
      | (apply isFalse; intro heq; exact Except.noConfusion heq)
      | (rename_i u v
         exact match decEq u v with
         | isTrue h => isTrue (by rw [h])
         | isFalse h => isFalse (by intro hh; exact h (Except.noConfusion hh id)))

/-- The everything-matching context (empty deny list for every type). -/
def wideScope : ContextScope := ⟨(none, some []), (none, some []), (none, some [])⟩

/-- A two-command state used to witness the amended registration theorem. -/
def c7exP : Cmd := { name := ['p'], context := wideScope, parent := none, children := [] }

/-- The candidate child command of the witness state. -/
def c7exQ : Cmd := { name := ['q'], context := wideScope, parent := none, children := [] }

/-- The witness state: two parentless commands `p` and `q`. -/
def c7exSt : AppState := { cmds := [c7exP, c7exQ], commandMap := [(['p'], 0), (['q'], 1)] }

/-- The witness calling context, restricted to id 1 everywhere. -/
def c7exCc : ContextScope := ⟨(some [1], none), (some [1], none), (some [1], none)⟩

/-- The user record fields the pipeline reads (`user.authority`; the usage
payload lives with the storage collaborator). -/
structure UserData where
  authority : Nat
deriving DecidableEq

/-- Source type `UserType<T> = T | ((user: UserData) => T)`: a config value that may be a
per-user function. -/
inductive UserType (α : Type) where
  | const : α → UserType α
  | func : (UserData → α) → UserType α

/-- Source method `Command.getConfig`: `typeof value === 'function' ? value(meta.$user) : value`. -/
def UserType.getConfig {α : Type} : UserType α → UserData → α
  | .const a, _ => a
  | .func f, u => f u

/-- The node config record (`CommandConfig` merged over `defaultConfig`):
`authority: 1, maxUsage: Infinity, minInterval: 0, showWarning: true`, the
check switches absent hence falsy.  A `maxUsage` of `none` is Infinity. -/
structure CommandConfig where
  checkUnknown : Bool := false
  checkRequired : Bool := false
  checkArgCount : Bool := false
  usageName : Option JStr := none
  authority : Nat := 1
  maxUsage : UserType (Option Nat) := .const none
  minInterval : UserType Nat := .const 0
  showWarning : Bool := true

/-- An option descriptor as produced by `parseOption`: flag name variants in
camel case (`camels`, index 0 is canonical), the longest name, the raw
declaration, and the authority/notUsage/required markers. -/
structure CommandOption where
  camels : List JStr
  longest : JStr
  rawName : JStr
  authority : Nat := 0
  notUsage : Bool := false
  required : Bool := false
deriving DecidableEq

/-- A positional argument descriptor from `parseArguments`. -/
structure CommandArgument where
  required : Bool := false
  variadic : Bool := false
  noSegment : Bool := false
deriving DecidableEq

/-- The user fields of the database layer; `authority` and `usage` are the
two the pipeline itself may request. -/
inductive UserField where
  | authority
  | usage
  | other (s : JStr)
deriving DecidableEq

/-- The command node data the execution pipeline reads. -/
structure CmdModel where
  name : JStr
  config : CommandConfig := {}
  argsDef : List CommandArgument := []
  options : List CommandOption := []
  userFields : List UserField := []

/-- A parsed invocation: positional argument values, names of the present
options, unknown option tokens, the resolved user record, and whether the
`before-command` hook claimed the invocation. -/
structure Argv where
  args : List JStr := []
  options : List JStr := []
  unknown : List JStr := []
  user : Option UserData := none
  beforeHandled : Bool := false

/-- The hint messages of the pipeline (`messages.*`); payloads carry the data
the original interpolates into the format string. -/
inductive HintMsg where
  | insufficientArguments
  | redundantArguments
  | unknownOptions (ls : List JStr)
  | requiredOptions (raw : JStr)
  | lowAuthority
  | usageExhausted
  | tooFrequent
deriving DecidableEq

/-- The `updateUsage` collaborator (`utils.ts`, not under `src/`): called with
the usage identifier, the user record and the computed thresholds, it reports
a failure message or nothing. -/
abbrev UsageOracle := JStr → UserData → Option Nat → Nat → Option HintMsg

/-- Result of one pipeline check: pass, fail with a hint message, or a
JavaScript TypeError. -/
inductive StepRes where
  | pass
  | hint (m : HintMsg)
  | crash
deriving DecidableEq

/-- Source getter `usageName () { return this.config.usageName || this.name }` (an
empty string is falsy). -/
def CmdModel.usageName (c : CmdModel) : JStr :=
  match c.config.usageName with
  | some s => if s = [] then c.name else s
  | none => c.name

/-- Presence test `option.camels[0] in options`. -/
def optPresent (o : CommandOption) (opts : List JStr) : Bool :=
  opts.contains (o.camels.headD [])

/-- The option loop of `Command._checkUser`: the first present option whose
authority exceeds the user's aborts with the low-authority message; a present
`notUsage` option clears the usage flag. -/
def optionAuthLoop : List CommandOption → List JStr → Nat → Bool → Except HintMsg Bool
  | [], _, _, isUsage => .ok isUsage
  | o :: os, opts, auth, isUsage =>
    if optPresent o opts then
      if o.authority > auth then .error .lowAuthority
      else optionAuthLoop os opts auth (isUsage && !o.notUsage)
    else optionAuthLoop os opts auth isUsage

/-- Source method `Command._checkUser`: no user record means no gating; then the node
authority check, the option loop, and - when usage accounting applies and a
threshold is effective - the delegation to `updateUsage` with the node's
usage identifier. -/
def CmdModel.checkUser (c : CmdModel) (upd : UsageOracle) (user : Option UserData)
    (opts : List JStr) : Option HintMsg :=
  match user with
  | none => none
  | some u =>
    if c.config.authority > u.authority then some .lowAuthority
    else
      match optionAuthLoop c.options opts u.authority true with
      | .error m => some m
      | .ok isUsage =>
        if isUsage then
          let minInterval := c.config.minInterval.getConfig u
          let maxUsage := c.config.maxUsage.getConfig u
          if maxUsage.isSome || 0 < minInterval then
            upd c.usageName u maxUsage minInterval
          else none
        else none

/-- The redundant-argument half of the argument-count check:
`args.length > this._argsDef.length && !finalArg.noSegment && !finalArg.variadic`
where `finalArg` is `this._argsDef[this._argsDef.length - 1]` - reading
`.noSegment` of `undefined` when no argument is declared is a TypeError. -/
def CmdModel.redundantCheck (c : CmdModel) (args : List JStr) : StepRes :=
  if c.argsDef.length < args.length then
    match c.argsDef.getLast? with
    | none => .crash
    | some fa => if !fa.noSegment && !fa.variadic then .hint .redundantArguments else .pass
  else .pass

/-- The argument-count check: `nextArg?.required` reports insufficient
arguments, then the redundant-argument condition is evaluated. -/
def CmdModel.argCountCheck (c : CmdModel) (args : List JStr) : StepRes :=
  if c.config.checkArgCount then
    match c.argsDef.get? args.length with
    | some a => if a.required then .hint .insufficientArguments else c.redundantCheck args
    | none => c.redundantCheck args
  else .pass

/-- The unknown-option check. -/
def CmdModel.unknownCheck (c : CmdModel) (unknown : List JStr) : StepRes :=
  if c.config.checkUnknown && !unknown.isEmpty then .hint (.unknownOptions unknown)
  else .pass

/-- The required-option check:
`this._options.find(o => o.required && !(o.longest in options))`. -/
def CmdModel.requiredCheck (c : CmdModel) (opts : List JStr) : StepRes :=
  if c.config.checkRequired then
    match c.options.find? (fun o => o.required && !(opts.contains o.longest)) with
    | some absent => .hint (.requiredOptions absent.rawName)
    | none => .pass
  else .pass

/-- Observable outcome of `Command.execute`: hook claimed the invocation, a
check failed (with whether the hint was sent), a TypeError, or the action ran. -/
inductive ExecOutcome where
  | handled
  | hinted (m : HintMsg) (sent : Bool)
  | crashed
  | completed
deriving DecidableEq

/-- Source method `Command._sendHint`: send the formatted message when `showWarning` is set,
then return from the pipeline either way. -/
def CmdModel.sendHint (c : CmdModel) (m : HintMsg) : ExecOutcome :=
  .hinted m c.config.showWarning

/-- Source method `Command.execute`: the `before-command` hook, the argument-count check,
the unknown-option check, the required-option check, the authority/usage
check, then the action. -/
def CmdModel.execute (c : CmdModel) (argv : Argv) (upd : UsageOracle) : ExecOutcome :=
  if argv.beforeHandled then .handled
  else
    match c.argCountCheck argv.args with
    | .crash => .crashed
    | .hint m => c.sendHint m
    | .pass =>
      match c.unknownCheck argv.unknown with
      | .crash => .crashed
      | .hint m => c.sendHint m
      | .pass =>
        match c.requiredCheck argv.options with
        | .crash => .crashed
        | .hint m => c.sendHint m
        | .pass =>
          match c.checkUser upd argv.user argv.options with
          | some m => c.sendHint m
          | none => .completed

/-- First non-passing result of a list of checks. -/
def firstFail : List StepRes → StepRes
  | [] => .pass
  | .pass :: rest => firstFail rest
  | r :: _ => r

/-- The authority/usage stage viewed as a check. -/
def CmdModel.userStep (c : CmdModel) (argv : Argv) (upd : UsageOracle) : StepRes :=
  match c.checkUser upd argv.user argv.options with
  | some m => .hint m
  | none => .pass

/-- Insert a field into the field set (`Set.add`; sets are modelled as
duplicate-free insertion lists, membership being the observable). -/
def addField (l : List UserField) (f : UserField) : List UserField :=
  if f ∈ l then l else l ++ [f]

/-- The option loop of `Command.attachUserFields`: a present option with a
positive authority threshold forces the authority fetch, a present `notUsage`
option cancels the usage fetch. -/
def optionFieldLoop : List CommandOption → List JStr → Bool → Bool → Bool × Bool
  | [], _, sFA, sFU => (sFA, sFU)
  | o :: os, opts, sFA, sFU =>
    if optPresent o opts then
      optionFieldLoop os opts (sFA || decide (0 < o.authority)) (sFU && !o.notUsage)
    else optionFieldLoop os opts sFA sFU

/-- Condition `typeof maxUsage === 'number' && maxUsage < Infinity || typeof minInterval
=== 'number' && minInterval > 0`: only plain-number thresholds count;
function-valued thresholds fail the typeof test. -/
def numThresholds (cfg : CommandConfig) : Bool :=
  (match cfg.maxUsage with
   | .const (some _) => true
   | _ => false) ||
  (match cfg.minInterval with
   | .const n => decide (0 < n)
   | .func _ => false)

/-- Source function `Command.attachUserFields`: no bound command adds nothing; otherwise the
declared fields are unioned in, then `authority` when a positive authority
threshold is found on the node or a present option, and `usage` when a
plain-number usage threshold is effective and no present option is marked
`notUsage`. -/
def attachUserFields (c : Option CmdModel) (opts : List JStr) (fields : List UserField) :
    List UserField :=
  match c with
  | none => fields
  | some cmd =>
    let fields1 := cmd.userFields.foldl addField fields
    let sFA : Bool := if UserField.authority ∈ fields1 then false
      else decide (0 < cmd.config.authority)
    let sFU : Bool := if UserField.usage ∈ fields1 then false else numThresholds cmd.config
    let res := optionFieldLoop cmd.options opts sFA sFU
    let fields2 := if res.1 then addField fields1 .authority else fields1
    if res.2 then addField fields2 .usage else fields2

/-- The options record of the `teach` command as read by the
`dialogue/modify` pre-hook of `src/unnamed/part_000`. -/
structure TeachOptions where
  answer : Option JStr := none
  question : Option JStr := none
  original : Option JStr := none
  probabilityStrict : Option Rat := none
  probabilityAppellative : Option Rat := none
  keyword : Option Bool := none
  redirect : Option Bool := none

/-- The dialogue record mutated by the handler. -/
structure DialogueData where
  answer : Option JStr
  question : Option JStr
  original : Option JStr
  probS : Rat
  probA : Rat
  flag : Nat
deriving DecidableEq

/-- JavaScript truthiness of an optional string (`if (options.answer)`): an
absent or empty string is falsy. -/
def truthyStr : Option JStr → Bool
  | some s => !s.isEmpty
  | none => false

/-- Update `data.flag &= ~mask` on nonnegative JavaScript integers: clear the mask
bits (`x & ~m = x - (x & m)` bitwise). -/
def clearFlag (flag mask : Nat) : Nat := flag - (flag &&& mask)

/-- The `ctx.before('dialogue/modify')` handler of the teach plugin, with the
`DialogueFlag.keyword` and `DialogueFlag.redirect` bit masks as parameters
(`./database` is not under `src/`; their values do not matter here). -/
def beforeModify (kFlag rFlag : Nat) (o : TeachOptions) (target appellative : Bool)
    (d : DialogueData) : DialogueData :=
  let d1 := if truthyStr o.answer then { d with answer := o.answer } else d
  let d2 :=
    if truthyStr o.question then { d1 with question := o.question, original := o.original }
    else d1
  let d3 :=
    if !target && appellative then
      let da := { d2 with probS := o.probabilityStrict.getD 0 }
      { da with probS := o.probabilityAppellative.getD 1 }
    else
      let da :=
        if o.probabilityStrict.isSome then { d2 with probS := o.probabilityStrict.getD 0 }
        else d2
      if o.probabilityAppellative.isSome then
        { da with probA := o.probabilityAppellative.getD 1 }
      else da
  let d4 :=
    match o.keyword with
    | some b => { d3 with flag := clearFlag d3.flag kFlag ||| (if b then kFlag else 0) }
    | none => d3
  match o.redirect with
  | some b => { d4 with flag := clearFlag d4.flag rFlag ||| (if b then rFlag else 0) }
  | none => d4

theorem KU.contains_eq (l : List Nat) (x : Nat) : l.contains x = decide (x ∈ l) := by
  simp [List.elem_eq_mem]

theorem KU.mem_union (a b : List Nat) (x : Nat) :
    x ∈ KU.union a b ↔ x ∈ a ∨ x ∈ b := by
  by_cases hx : x ∈ a <;>
    simp [KU.union, KU.contains_eq, List.mem_filter, List.mem_append, hx]

theorem KU.mem_intersection (a b : List Nat) (x : Nat) :
    x ∈ KU.intersection a b ↔ x ∈ a ∧ x ∈ b := by
  simp [KU.intersection, KU.contains_eq, List.mem_filter]

theorem KU.mem_difference (a b : List Nat) (x : Nat) :
    x ∈ KU.difference a b ↔ x ∈ a ∧ x ∉ b := by
  simp [KU.difference, KU.contains_eq, List.mem_filter]

theorem KU.contain_iff (a b : List Nat) :
    KU.contain a b = true ↔ ∀ x ∈ b, x ∈ a := by
  simp [KU.contain, KU.contains_eq]

theorem Subscope.matchId_intersect (s1 s2 : Subscope) (id : Nat) :
    (s1.intersect s2).matchId id = (s1.matchId id && s2.matchId id) := by
  rcases s1 with ⟨i1, e1⟩
  rcases s2 with ⟨i2, e2⟩
  cases i1 <;> cases i2 <;>
    simp only [Subscope.intersect, Subscope.matchId, Option.getD_some, KU.contains_eq,
      ← decide_not, ← Bool.decide_and, decide_eq_decide, KU.mem_union,
      KU.mem_intersection, KU.mem_difference] <;>
    tauto

theorem Subscope.matchId_plus (s1 s2 : Subscope) (id : Nat) :
    (s1.plus s2).matchId id = (s1.matchId id || s2.matchId id) := by
  rcases s1 with ⟨i1, e1⟩
  rcases s2 with ⟨i2, e2⟩
  cases i1 <;> cases i2 <;>
    simp only [Subscope.plus, Subscope.matchId, Option.getD_some, KU.contains_eq,
      ← decide_not, ← Bool.decide_or, decide_eq_decide, KU.mem_union,
      KU.mem_intersection, KU.mem_difference] <;>
    tauto

theorem Subscope.matchId_inverse (s : Subscope) (id : Nat) :
    s.inverse.matchId id = !s.matchId id := by
  rcases s with ⟨i, e⟩
  cases i <;> simp [Subscope.inverse, Subscope.matchId]

/-- C1: for all pairs of context scopes `a, b` and every event identity
(type, id), `a.intersect(b).match(x) = a.match(x) && b.match(x)`,
`a.plus(b).match(x) = a.match(x) || b.match(x)` and
`a.inverse().match(x) = !a.match(x)`. -/
theorem C1_match_algebra (a b : ContextScope) (ty : CtxType) (id : Nat) :
    (a.intersect b).matchId ty id = (a.matchId ty id && b.matchId ty id) ∧
    (a.plus b).matchId ty id = (a.matchId ty id || b.matchId ty id) ∧
    (a.inverse).matchId ty id = !(a.matchId ty id) := by
  cases ty <;>
    exact ⟨Subscope.matchId_intersect _ _ _, Subscope.matchId_plus _ _ _,
      Subscope.matchId_inverse _ _⟩

theorem Subscope.containSub_mono (s1 s2 : Subscope) (id : Nat)
    (h : s1.containSub s2 = true) (hm : s2.matchId id = true) :
    s1.matchId id = true := by
  rcases s1 with ⟨i1, e1⟩
  rcases s2 with ⟨i2, e2⟩
  cases i1 <;> cases i2 <;>
    simp only [Subscope.containSub, Subscope.matchId, KU.contain_iff, KU.contains_eq,
      beq_iff_eq, List.length_eq_zero, Bool.not_eq_true', decide_eq_true_eq,
      decide_eq_false_iff_not] at h hm ⊢
  · intro hc
    exact hm (h _ hc)
  · rename_i i2
    intro hc
    have hmem : id ∈ KU.intersection i2 (Option.getD e1 []) := by
      simp [KU.intersection, KU.contains_eq, hm, hc]
    rw [h] at hmem
    exact absurd hmem (List.not_mem_nil id)
  · exact Bool.noConfusion h
  · exact h _ hm

/-- C2 counterexample: under the claim's reading of the primitive
("every id of a is in b"), `Context.contain` does not imply match
containment: with `a` including only id 1 and `b` including ids 1 and 2 at
every identity type, `a.contain(b)` computes to true while the identity
(user, 2) matches `b` but not `a`. -/
theorem C2_counterexample :
    ContextScope.containUnderClaim
        ⟨(some [1], none), (some [1], none), (some [1], none)⟩
        ⟨(some [1, 2], none), (some [1, 2], none), (some [1, 2], none)⟩ = true ∧
    ContextScope.matchId
        ⟨(some [1, 2], none), (some [1, 2], none), (some [1, 2], none)⟩ .user 2 = true ∧
    ContextScope.matchId
        ⟨(some [1], none), (some [1], none), (some [1], none)⟩ .user 2 = false := by
  decide

/-- C2 (amended): with the actual primitive — `contain(a, b)` holds iff every
id of `b` is in `a` — `a.contain(b) = true` implies that every event identity
matched by `b` is matched by `a`. -/
theorem C2_contain_mono (a b : ContextScope) (ty : CtxType) (id : Nat)
    (h : a.contain b = true) (hm : b.matchId ty id = true) :
    a.matchId ty id = true := by
  simp only [ContextScope.contain, Bool.and_eq_true] at h
  cases ty <;>
    exact Subscope.containSub_mono _ _ _ (by tauto) hm

/-- C2 witness: the amended containment theorem at a concrete instance. -/
theorem C2_contain_mono_witness :
    ContextScope.matchId
      ⟨(some [1, 2], none), (none, some []), (none, some [])⟩ .user 2 = true :=
  C2_contain_mono
    ⟨(some [1, 2], none), (none, some []), (none, some [])⟩
    ⟨(some [2], none), (none, some [7]), (none, some [])⟩
    .user 2 (by decide) (by decide)

theorem digitVal_digitChar (d : Nat) (h : d < 10) : digitVal (digitChar d) = some d := by
  interval_cases d <;> decide

theorem digitChar_isDigit (d : Nat) (h : d < 10) : (digitChar d).isDigit = true := by
  interval_cases d <;> decide

theorem natCharsAux_acc (f : Nat) : ∀ n acc, natCharsAux f n acc = natCharsAux f n [] ++ acc := by
  induction f with
  | zero => intro n acc; simp [natCharsAux]
  | succ f ih =>
    intro n acc
    by_cases h : n < 10
    · simp [natCharsAux, h]
    · rw [natCharsAux, natCharsAux, if_neg h, if_neg h, ih (n / 10),
        ih (n / 10) [digitChar (n % 10)], List.append_assoc]
      rfl

theorem natChars_ne_nil (n : Nat) : natChars n ≠ [] := by
  rw [natChars, natCharsAux]
  by_cases h : n < 10
  · simp [h]
  · rw [if_neg h, natCharsAux_acc]
    simp

theorem mem_natCharsAux_isDigit (f : Nat) :
    ∀ n acc c, (∀ x ∈ acc, Char.isDigit x = true) → c ∈ natCharsAux f n acc →
      c.isDigit = true := by
  induction f with
  | zero => intro n acc c hacc hc; exact hacc c hc
  | succ f ih =>
    intro n acc c hacc hc
    by_cases h : n < 10
    · rw [natCharsAux, if_pos h] at hc
      rcases List.mem_cons.mp hc with rfl | hc
      · exact digitChar_isDigit n h
      · exact hacc c hc
    · rw [natCharsAux, if_neg h] at hc
      refine ih (n / 10) _ c ?_ hc
      intro x hx
      rcases List.mem_cons.mp hx with rfl | hx
      · exact digitChar_isDigit _ (Nat.mod_lt n (by omega))
      · exact hacc x hx

theorem mem_natChars_isDigit (n : Nat) (c : Char) (hc : c ∈ natChars n) :
    c.isDigit = true :=
  mem_natCharsAux_isDigit (n + 1) n [] c (by intro x hx; cases hx) hc

theorem parseDigitsAux_append (s t : JStr) :
    ∀ acc, parseDigitsAux (s ++ t) acc =
      match parseDigitsAux s acc with
      | some a => parseDigitsAux t a
      | none => none := by
  induction s with
  | nil => intro acc; rfl
  | cons c cs ih =>
    intro acc
    rw [List.cons_append, parseDigitsAux, parseDigitsAux]
    cases digitVal c with
    | none => rfl
    | some d => exact ih _

theorem parseDigitsAux_natChars (f : Nat) :
    ∀ n, n < f → ∀ acc, parseDigitsAux (natCharsAux f n []) acc =
      some (acc * 10 ^ (natCharsAux f n []).length + n) := by
  induction f with
  | zero => intro n hn; omega
  | succ f ih =>
    intro n hn acc
    by_cases h : n < 10
    · rw [natCharsAux, if_pos h]
      simp [parseDigitsAux, digitVal_digitChar n h, Nat.mul_comm]
    · have hdiv : n / 10 < f := by
        have h1 : n / 10 < n := Nat.div_lt_self (by omega) (by omega)
        omega
      have hmod10 : n % 10 < 10 := Nat.mod_lt n (by omega)
      rw [natCharsAux, if_neg h, natCharsAux_acc, parseDigitsAux_append,
        ih (n / 10) hdiv acc]
      simp only [parseDigitsAux, digitVal_digitChar _ hmod10, List.length_append,
        List.length_singleton, pow_succ]
      congr 1
      rw [← Nat.mul_assoc]
      have hmod := Nat.div_add_mod n 10
      generalize acc * 10 ^ (natCharsAux f (n / 10) []).length = A at *
      omega

theorem parseDigits_of_ne_nil (s : JStr) (h : s ≠ []) :
    parseDigits s = parseDigitsAux s 0 := by
  cases s with
  | nil => exact absurd rfl h
  | cons c cs => rfl

theorem parseDigits_natChars (n : Nat) : parseDigits (natChars n) = some n := by
  rw [parseDigits_of_ne_nil _ (natChars_ne_nil n), natChars,
    parseDigitsAux_natChars (n + 1) n (by omega) 0]
  simp

theorem jsNumber_natChars (n : Nat) : jsNumber (natChars n) = n := by
  rw [jsNumber, parseDigits_natChars]
  rfl

theorem intercalate_cons (c : Char) (x : JStr) (t : List JStr) :
    [c].intercalate (x :: t) =
      x ++ (if t = [] then [] else c :: [c].intercalate t) := by
  cases t <;> simp [List.intercalate, List.intersperse]

theorem mem_intercalate (c d : Char) (parts : List JStr)
    (h : d ∈ [c].intercalate parts) : d = c ∨ ∃ p ∈ parts, d ∈ p := by
  induction parts with
  | nil => simp [List.intercalate] at h
  | cons x t ih =>
    rw [intercalate_cons] at h
    rcases List.mem_append.mp h with hx | hrest
    · exact Or.inr ⟨x, by simp, hx⟩
    · by_cases ht : t = []
      · rw [if_pos ht] at hrest
        cases hrest
      · rw [if_neg ht] at hrest
        rcases List.mem_cons.mp hrest with rfl | hm
        · exact Or.inl rfl
        · rcases ih hm with h1 | ⟨p, hp, hdp⟩
          · exact Or.inl h1
          · exact Or.inr ⟨p, by simp [hp], hdp⟩

theorem intercalate_ne_nil (c : Char) (x : JStr) (t : List JStr) (hx : x ≠ []) :
    [c].intercalate (x :: t) ≠ [] := by
  rw [intercalate_cons]
  cases t <;> simp [hx]

theorem segment_ne_nil (s : Subscope) (ty : CtxType) : s.segment ty ≠ [] := by
  rcases s with ⟨i, e⟩
  cases i <;> simp [Subscope.segment]

theorem ids_mem_special (c : Char) (l : List Nat) (hc : c.isDigit = false)
    (hcc : c ≠ ',') (h : c ∈ [','].intercalate (l.map natChars)) : False := by
  rcases mem_intercalate _ _ _ h with rfl | ⟨p, hp, hcp⟩
  · exact hcc rfl
  · rcases List.mem_map.mp hp with ⟨n, _, rfl⟩
    rw [mem_natChars_isDigit n c hcp] at hc
    exact Bool.noConfusion hc

theorem semi_not_mem_segment (s : Subscope) (ty : CtxType) : ';' ∉ s.segment ty := by
  rcases s with ⟨i, e⟩
  intro hmem
  have hJ : ∀ l : List Nat, ';' ∉ [','].intercalate (l.map natChars) := by
    intro l hl
    exact ids_mem_special ';' l (by decide) (by decide) hl
  cases i with
  | some inc =>
    rw [show Subscope.segment (some inc, e) ty =
      '+' :: (ty.tag ++ [','].intercalate (inc.map natChars)) from rfl] at hmem
    rcases List.mem_cons.mp hmem with h | h
    · exact absurd h (by decide)
    · rcases List.mem_append.mp h with h | h
      · cases ty <;> exact absurd h (by decide)
      · exact hJ inc h
  | none =>
    rw [show Subscope.segment (none, e) ty =
      '-' :: (ty.tag ++ [','].intercalate ((e.getD []).map natChars)) from rfl] at hmem
    rcases List.mem_cons.mp hmem with h | h
    · exact absurd h (by decide)
    · rcases List.mem_append.mp h with h | h
      · cases ty <;> exact absurd h (by decide)
      · exact hJ _ h

theorem bang_isEmpty (l : JStr) (h : l ≠ []) : (!l.isEmpty) = true := by
  cases l with
  | nil => exact absurd rfl h
  | cons c cs => rfl

theorem splitOn_stringify (sc : ContextScope) :
    (sc.stringify).splitOn ';' =
      [sc.user.segment .user, sc.group.segment .group, sc.discuss.segment .discuss] := by
  rw [ContextScope.stringify, List.filter_cons, List.filter_cons, List.filter_cons,
    bang_isEmpty _ (segment_ne_nil sc.user .user),
    bang_isEmpty _ (segment_ne_nil sc.group .group),
    bang_isEmpty _ (segment_ne_nil sc.discuss .discuss)]
  simp only [if_true, List.filter_nil]
  refine List.splitOn_intercalate _ ';' ?_ (by simp)
  intro l hl
  rcases List.mem_cons.mp hl with rfl | hl
  · exact semi_not_mem_segment _ _
  rcases List.mem_cons.mp hl with rfl | hl
  · exact semi_not_mem_segment _ _
  rcases List.mem_cons.mp hl with rfl | hl
  · exact semi_not_mem_segment _ _
  · cases hl

theorem stripType_tag (ty : CtxType) (body : JStr) :
    stripType (ty.tag ++ body) = some (ty, body) := by
  cases ty <;> rfl

theorem parseTyped_tag (ty : CtxType) (body : JStr) :
    parseTyped (ty.tag ++ body) =
      if body = [] then none
      else some (ty, (body.splitOn ',').map jsNumber) := by
  simp only [parseTyped, stripType_tag]

theorem parseSegment_plus (rest : JStr) :
    parseSegment ('+' :: rest) =
      (parseTyped rest).map (fun p => (p.1, (some p.2, none))) := rfl

theorem parseSegment_minus (rest : JStr) :
    parseSegment ('-' :: rest) =
      (parseTyped rest).map (fun p => (p.1, (none, some p.2))) := rfl

theorem splitOn_comma_ids (l : List Nat) (h : l ≠ []) :
    ([','].intercalate (l.map natChars)).splitOn ',' = l.map natChars := by
  refine List.splitOn_intercalate _ ',' ?_ (by simpa using h)
  intro p hp hmem
  rcases List.mem_map.mp hp with ⟨n, _, rfl⟩
  exact absurd (mem_natChars_isDigit n ',' hmem) (by decide)

theorem map_jsNumber_natChars (l : List Nat) : (l.map natChars).map jsNumber = l := by
  induction l with
  | nil => rfl
  | cons n t ih => simp [ih, jsNumber_natChars]

theorem ids_join_ne_nil (l : List Nat) (h : l ≠ []) :
    [','].intercalate (l.map natChars) ≠ [] := by
  cases l with
  | nil => exact absurd rfl h
  | cons n t =>
    simpa using intercalate_ne_nil ',' (natChars n) (t.map natChars) (natChars_ne_nil n)

theorem parseSegment_segment (s : Subscope) (ty : CtxType) (h : s.renderList ≠ []) :
    parseSegment (s.segment ty) = some (ty, s.canon) := by
  rcases s with ⟨i, e⟩
  cases i with
  | some inc =>
    have hinc : inc ≠ [] := h
    rw [show Subscope.segment (some inc, e) ty =
      '+' :: (ty.tag ++ [','].intercalate (inc.map natChars)) from rfl]
    rw [parseSegment_plus, parseTyped_tag, if_neg (ids_join_ne_nil inc hinc)]
    rw [splitOn_comma_ids inc hinc, map_jsNumber_natChars]
    rfl
  | none =>
    have hexc : e.getD [] ≠ [] := h
    rw [show Subscope.segment (none, e) ty =
      '-' :: (ty.tag ++ [','].intercalate ((e.getD []).map natChars)) from rfl]
    rw [parseSegment_minus, parseTyped_tag, if_neg (ids_join_ne_nil _ hexc)]
    rw [splitOn_comma_ids _ hexc, map_jsNumber_natChars]
    rfl

theorem segment_canon (s : Subscope) (ty : CtxType) :
    s.canon.segment ty = s.segment ty := by
  rcases s with ⟨i, e⟩
  cases i <;> rfl

theorem stringify_canon (sc : ContextScope) : sc.canon.stringify = sc.stringify := by
  simp only [ContextScope.stringify, ContextScope.canon, segment_canon]

/-- C3 counterexample: a scope reachable by one `intersect` from two valid
Contexts has an empty include list for every identity type; its stringified
form does not re-parse (parse raises a format error on the empty id list of a
segment such as `+user:`), and stringification enumerates every identity
type, including those still holding the default (noop) subscope. -/
theorem C3_counterexample :
    ContextScope.parse (ContextScope.stringify (ContextScope.intersect
      ⟨(some [1], none), (some [1], none), (some [1], none)⟩
      ⟨(some [2], none), (some [2], none), (some [2], none)⟩)) = none ∧
    ContextScope.stringify ⟨(some [1], none), noopSub, noopSub⟩ =
      ['+', 'u', 's', 'e', 'r', ':', '1', ';',
       '+', 'g', 'r', 'o', 'u', 'p', ':', ';',
       '+', 'd', 'i', 's', 'c', 'u', 's', 's', ':'] := by
  decide

/-- C3 (amended): for every scope all of whose rendered id lists are
nonempty, `parse(stringify(scope))` succeeds, the result has the same
identifier as `scope`, and the stringified form enumerates all three
identity types (not only the non-default ones). -/
theorem C3_roundtrip (sc : ContextScope)
    (hu : sc.user.renderList ≠ []) (hg : sc.group.renderList ≠ [])
    (hd : sc.discuss.renderList ≠ []) :
    ContextScope.parse sc.stringify = some sc.canon ∧
    sc.canon.identifier = sc.identifier ∧
    ((sc.stringify).splitOn ';').length = 3 := by
  refine ⟨?_, ?_, ?_⟩
  · rw [ContextScope.parse, splitOn_stringify]
    simp only [List.foldlM, parseSegment_segment sc.user .user hu,
      parseSegment_segment sc.group .group hg,
      parseSegment_segment sc.discuss .discuss hd, Option.map_some, Option.bind_some]
    simp [ContextScope.set, ContextScope.canon, noopScope, Option.bind]
  · rw [ContextScope.identifier, ContextScope.identifier, stringify_canon]
  · rw [splitOn_stringify]
    rfl

/-- C3 witness: the amended round-trip at a concrete scope. -/
theorem C3_roundtrip_witness :
    ContextScope.parse
        (ContextScope.stringify ⟨(some [1, 2], none), (none, some [3]), (some [40], none)⟩) =
      some (ContextScope.canon ⟨(some [1, 2], none), (none, some [3]), (some [40], none)⟩) :=
  (C3_roundtrip ⟨(some [1, 2], none), (none, some [3]), (some [40], none)⟩
    (by decide) (by decide) (by decide)).1

/-- C4 counterexample: both inputs satisfy the exactly-one invariant, yet
`inverse` of an exclude-scope returns a subscope whose include and exclude are
both non-null (`[exclude.slice(), []]` in the source). -/
theorem C4_counterexample :
    (Subscope.exactlyOne ((none, some [1]) : Subscope) ∧ Subscope.exactlyOne noopSub) ∧
    ((ContextScope.inverse ⟨(none, some [1]), noopSub, noopSub⟩).user.1 ≠ none ∧
     (ContextScope.inverse ⟨(none, some [1]), noopSub, noopSub⟩).user.2 ≠ none) := by
  decide

/-- C4 (amended): `plus`, `minus` and `intersect` preserve the exactly-one
invariant; `inverse` never produces a both-null subscope and preserves
exactly-one on include-scopes, but on an exclude-scope it returns the pair of
the old exclude list and an empty non-null exclude, violating exactly-one. -/
theorem C4_invariant (s1 s2 : Subscope) (h1 : s1.exactlyOne) (h2 : s2.exactlyOne) :
    (s1.plus s2).exactlyOne ∧ (s1.minus s2).exactlyOne ∧ (s1.intersect s2).exactlyOne ∧
    (s1.inverse.1 ≠ none ∨ s1.inverse.2 ≠ none) ∧
    (∀ inc, s1.1 = some inc → s1.inverse.exactlyOne) ∧
    (∀ exc, s1.1 = none → s1.2 = some exc → s1.inverse = (some exc, some [])) := by
  rcases s1 with ⟨i1, e1⟩
  rcases s2 with ⟨i2, e2⟩
  cases i1 <;> cases i2 <;> cases e1 <;> cases e2 <;>
    simp_all [Subscope.plus, Subscope.minus, Subscope.intersect, Subscope.inverse,
      Subscope.exactlyOne]

/-- C4 witness: the amended invariant theorem at a concrete instance. -/
theorem C4_invariant_witness :
    Subscope.exactlyOne (Subscope.plus ((some [1], none) : Subscope) ((none, some [2]) : Subscope)) :=
  (C4_invariant (some [1], none) (none, some [2]) (by decide) (by decide)).1

/-- C7 counterexample: registering the path `a/b` in a state whose only
command `b` is parentless with an everything-matching context, from a calling
context restricted to id 1, raises the context-containment error at the
second segment - but the first segment has already created and registered
node `a`, so the command tree was mutated before the error. -/
theorem C7_counterexample :
    commandPath ⟨(some [1], none), (some [1], none), (some [1], none)⟩
      { cmds := [{ name := ['b'],
                   context := ⟨(none, some []), (none, some []), (none, some [])⟩,
                   parent := none, children := [] }],
        commandMap := [(['b'], 0)] }
      ['a', '/', 'b'] =
    Except.error (RegErr.invalidContext,
      { cmds := [{ name := ['b'],
                   context := ⟨(none, some []), (none, some []), (none, some [])⟩,
                   parent := none, children := [] },
                 { name := ['a'],
                   context := ⟨(some [1], none), (some [1], none), (some [1], none)⟩,
                   parent := none, children := [] }],
        commandMap := [(['b'], 0), (['a'], 1)] }) := by
  decide

/-- C7 (amended): within the step that processes a single path segment, an
existing parentless node is adopted exactly when the parent's context contains
the candidate's context, and on failure the step raises the containment error
with the state unchanged (mutations by earlier segments of the same path may
persist); a segment that creates a node under a parent gives it the
intersection of the calling context and the parent's context, failing - with
the state unchanged - when that intersection's identifier is the noop
identifier. -/
theorem C7_registration :
    (∀ (cc : ContextScope) (st : AppState) (p : Nat) (seg name : JStr) (cid : Nat)
        (cmdc cmdp : Cmd),
      segmentName st (some p) seg = some name →
      lookupName st name = some cid →
      cid ≠ p →
      st.cmds.get? cid = some cmdc →
      st.cmds.get? p = some cmdp →
      cmdc.parent = none →
      (cmdp.context.contain cmdc.context = true →
        commandStep cc st (some p) seg = .ok (adopt st p cid, cid)) ∧
      (cmdp.context.contain cmdc.context = false →
        commandStep cc st (some p) seg = .error (.invalidContext, st))) ∧
    (∀ (cc : ContextScope) (st : AppState) (parent : Option Nat) (seg name : JStr)
        (ctx2 : ContextScope),
      segmentName st parent seg = some name →
      lookupName st name = none →
      (match parent with
       | some p => (st.cmds.get? p).map (fun (cp : Cmd) => cc.intersect cp.context)
       | none => some cc) = some ctx2 →
      name ≠ [] →
      (ctx2.identifier = noopIdentifier →
        commandStep cc st parent seg = .error (.invalidContext, st)) ∧
      (ctx2.identifier ≠ noopIdentifier →
        commandStep cc st parent seg = .ok (linkNew st parent name ctx2, st.cmds.length))) := by
  constructor
  · intro cc st p seg name cid cmdc cmdp h1 h2 h3 h4 h5 h6
    simp only [List.get?_eq_getElem?] at h4 h5
    constructor <;> intro hc <;>
      simp [commandStep, h1, h2, h3, h4, h5, h6, hc]
  · intro cc st parent seg name ctx2 h1 h2 h3 h4
    simp only [List.get?_eq_getElem?] at h3
    constructor <;> intro hc <;>
      simp [commandStep, h1, h2, h3, h4, hc]

/-- C7 witness: the amended step theorem at a concrete instance - adopting
the existing parentless `q` under `p` succeeds since `p`'s context contains
`q`'s. -/
theorem C7_registration_witness :
    commandStep c7exCc c7exSt (some 0) ['/', 'q'] = .ok (adopt c7exSt 0 1, 1) :=
  (C7_registration.1 c7exCc c7exSt 0 ['/', 'q'] ['q'] 1 c7exQ c7exP
    (by decide) (by decide) (by decide) (by decide) (by decide) rfl).1 (by decide)

/-- C5: the pipeline runs its checks in the order pre-execution hook,
argument count, unknown options, required options, authority/usage; the
first failing check determines the outcome - the hint is sent exactly when
`showWarning` is set - and no later check or the action runs; a hook that
signals handled aborts everything. -/
theorem C5_pipeline (c : CmdModel) (argv : Argv) (upd : UsageOracle) :
    c.execute argv upd =
      if argv.beforeHandled then .handled
      else
        match firstFail [c.argCountCheck argv.args, c.unknownCheck argv.unknown,
            c.requiredCheck argv.options, c.userStep argv upd] with
        | .pass => .completed
        | .hint m => .hinted m c.config.showWarning
        | .crash => .crashed := by
  cases hb : argv.beforeHandled <;>
    simp only [CmdModel.execute, CmdModel.userStep, hb, if_true, if_false, Bool.false_eq_true,
      Bool.true_eq_false]
  cases h1 : c.argCountCheck argv.args <;>
    cases h2 : c.unknownCheck argv.unknown <;>
      cases h3 : c.requiredCheck argv.options <;>
        cases h4 : c.checkUser upd argv.user argv.options <;>
          simp [firstFail, CmdModel.sendHint]

theorem optionAuthLoop_error (os : List CommandOption) (opts : List JStr) (auth : Nat)
    (iu : Bool) (hall : ∀ o ∈ os, optPresent o opts = true → o.authority ≤ auth) :
    optionAuthLoop os opts auth iu =
      .ok (iu && !(os.any (fun o => optPresent o opts && o.notUsage))) := by
  induction os generalizing iu with
  | nil => simp [optionAuthLoop]
  | cons o os ih =>
    by_cases hp : optPresent o opts = true
    · have hle : ¬(auth < o.authority) := by
        have := hall o (by simp) hp
        omega
      rw [optionAuthLoop, if_pos hp, if_neg hle, ih _ (fun x hx => hall x (by simp [hx]))]
      cases ho : o.notUsage <;> simp [hp, ho, Bool.and_assoc]
    · rw [optionAuthLoop, if_neg hp, ih _ (fun x hx => hall x (by simp [hx]))]
      simp only [List.any_cons]
      rw [show optPresent o opts = false by simpa using hp]
      simp

theorem optionAuthLoop_lowAuth (os : List CommandOption) (opts : List JStr) (auth : Nat)
    (iu : Bool) (hex : ∃ o ∈ os, optPresent o opts = true ∧ auth < o.authority) :
    optionAuthLoop os opts auth iu = .error .lowAuthority := by
  induction os generalizing iu with
  | nil => rcases hex with ⟨o, ho, _⟩; cases ho
  | cons o os ih =>
    rcases hex with ⟨x, hx, hpx, hax⟩
    rcases List.mem_cons.mp hx with rfl | hx
    · rw [optionAuthLoop, if_pos hpx, if_pos hax]
    · by_cases hp : optPresent o opts = true
      · by_cases ha : auth < o.authority
        · rw [optionAuthLoop, if_pos hp, if_pos ha]
        · rw [optionAuthLoop, if_pos hp, if_neg ha, ih _ ⟨x, hx, hpx, hax⟩]
      · rw [optionAuthLoop, if_neg hp, ih _ ⟨x, hx, hpx, hax⟩]

/-- C6: `_checkUser` gates exactly as specified - an absent user record means
no gating; a node authority above the user's, or a present option with an
authority above the user's, fails with the low-authority message; a present
`notUsage` option suppresses usage accounting; otherwise, when the evaluated
`maxUsage` is finite or the evaluated `minInterval` positive, the usage
collaborator is invoked with the node's usage identifier and those
thresholds, and when neither threshold is effective the check passes. -/
theorem C6_checkUser (c : CmdModel) (upd : UsageOracle) (u : UserData) (opts : List JStr) :
    (c.checkUser upd none opts = none) ∧
    (u.authority < c.config.authority →
      c.checkUser upd (some u) opts = some .lowAuthority) ∧
    (c.config.authority ≤ u.authority →
      (∃ o ∈ c.options, optPresent o opts = true ∧ u.authority < o.authority) →
      c.checkUser upd (some u) opts = some .lowAuthority) ∧
    (c.config.authority ≤ u.authority →
      (∀ o ∈ c.options, optPresent o opts = true → o.authority ≤ u.authority) →
      ((c.options.any (fun o => optPresent o opts && o.notUsage) = true →
          c.checkUser upd (some u) opts = none) ∧
       (c.options.any (fun o => optPresent o opts && o.notUsage) = false →
        ((c.config.maxUsage.getConfig u).isSome = true ∨
            0 < c.config.minInterval.getConfig u →
          c.checkUser upd (some u) opts =
            upd c.usageName u (c.config.maxUsage.getConfig u)
              (c.config.minInterval.getConfig u)) ∧
        ((c.config.maxUsage.getConfig u).isSome = false →
          c.config.minInterval.getConfig u = 0 →
          c.checkUser upd (some u) opts = none)))) := by
  refine ⟨rfl, ?_, ?_, ?_⟩
  · intro hauth
    simp [CmdModel.checkUser, hauth]
  · intro hle hex
    have hnlt : ¬(u.authority < c.config.authority) := by omega
    simp [CmdModel.checkUser, hnlt, optionAuthLoop_lowAuth c.options opts u.authority true hex]
  · intro hle hall
    have hnlt : ¬(u.authority < c.config.authority) := by omega
    constructor
    · intro hany
      simp [CmdModel.checkUser, hnlt, optionAuthLoop_error c.options opts u.authority true hall,
        hany]
    · intro hany
      constructor
      · intro hth
        rcases hth with hth | hth <;>
          simp [CmdModel.checkUser, hnlt,
            optionAuthLoop_error c.options opts u.authority true hall, hany, hth]
      · intro h1 h2
        simp [CmdModel.checkUser, hnlt,
          optionAuthLoop_error c.options opts u.authority true hall, hany, h1, h2]

/-- C6 witness: the checkUser characterization at a concrete command whose
evaluated per-user `maxUsage` is finite, showing the delegation to the usage
collaborator. -/
theorem C6_checkUser_witness :
    CmdModel.checkUser
        { name := ['f'], config := { maxUsage := .func (fun u => some u.authority) } }
        (fun _ _ _ _ => some .usageExhausted) (some { authority := 2 }) [] =
      some .usageExhausted :=
  (((C6_checkUser { name := ['f'], config := { maxUsage := .func (fun u => some u.authority) } }
      (fun _ _ _ _ => some .usageExhausted) { authority := 2 } []).2.2.2
    (by decide) (by intro o ho; cases ho)).2 (by decide)).1 (by decide)

/-- C8: with `checkArgCount` enabled, a command declaring one required
argument and given none reports insufficient arguments (first conjunct,
matching the claim), but a command declaring zero arguments and given one
positional value crashes with a TypeError instead of reporting redundant
arguments: `finalArg` is `undefined` and - unlike the adjacent
`nextArg?.required` - the source reads `finalArg.noSegment` without optional
chaining. -/
theorem C8_zero_args_crash :
    CmdModel.execute
        { name := ['f'], config := { checkArgCount := true },
          argsDef := [{ required := true }] }
        { args := [] } (fun _ _ _ _ => none) =
      .hinted .insufficientArguments true ∧
    CmdModel.execute
        { name := ['f'], config := { checkArgCount := true }, argsDef := [] }
        { args := [['x']] } (fun _ _ _ _ => none) =
      .crashed := by
  constructor <;> rfl

/-- C9 counterexample: a command whose `maxUsage` is a per-user function
evaluating to a finite bound for every user - a reachable finite usage
threshold - yet `attachUserFields` does not add the `usage` field, because
the source's `typeof maxUsage === 'number'` test excludes function-valued
thresholds. -/
theorem C9_counterexample :
    (UserType.getConfig
        (CommandConfig.maxUsage { maxUsage := .func (fun _ => some 5) })
        { authority := 1 }).isSome = true ∧
    UserField.usage ∉
      attachUserFields
        (some { name := ['t'], config := { maxUsage := .func (fun _ => some 5) } })
        [] [] := by
  constructor
  · rfl
  · intro hmem
    rw [show attachUserFields
        (some { name := ['t'], config := { maxUsage := .func (fun _ => some 5) } })
        [] [] = [UserField.authority] from rfl] at hmem
    rcases List.mem_cons.mp hmem with h | h
    · exact UserField.noConfusion h
    · cases h

theorem mem_addField (l : List UserField) (f g : UserField) :
    f ∈ addField l g ↔ f ∈ l ∨ f = g := by
  by_cases h : g ∈ l
  · simp only [addField, if_pos h]
    constructor
    · exact fun hf => Or.inl hf
    · rintro (hf | rfl)
      · exact hf
      · exact h
  · simp [addField, if_neg h]

theorem mem_foldl_addField (l : List UserField) :
    ∀ (init : List UserField) (f : UserField),
      f ∈ l.foldl addField init ↔ f ∈ init ∨ f ∈ l := by
  induction l with
  | nil => simp
  | cons g t ih =>
    intro init f
    rw [List.foldl_cons, ih, mem_addField]
    constructor
    · rintro ((hf | rfl) | hf)
      · exact Or.inl hf
      · exact Or.inr (by simp)
      · exact Or.inr (by simp [hf])
    · rintro (hf | hf)
      · exact Or.inl (Or.inl hf)
      · rcases List.mem_cons.mp hf with rfl | hf
        · exact Or.inl (Or.inr rfl)
        · exact Or.inr hf

theorem optionFieldLoop_spec (os : List CommandOption) :
    ∀ (opts : List JStr) (sFA sFU : Bool),
      optionFieldLoop os opts sFA sFU =
        (sFA || os.any (fun o => optPresent o opts && decide (0 < o.authority)),
         sFU && os.all (fun o => !(optPresent o opts && o.notUsage))) := by
  induction os with
  | nil => simp [optionFieldLoop]
  | cons o t ih =>
    intro opts sFA sFU
    rw [optionFieldLoop]
    by_cases hp : optPresent o opts = true
    · rw [if_pos hp, ih]
      simp [hp, Bool.or_assoc, Bool.and_assoc]
    · rw [if_neg hp, ih]
      have hp2 : optPresent o opts = false := by simpa using hp
      simp [List.any_cons, List.all_cons, hp2]

theorem mem_ite_addField (b : Bool) (l : List UserField) (f g : UserField) :
    f ∈ (if b then addField l g else l) ↔ f ∈ l ∨ (b = true ∧ f = g) := by
  cases b <;> simp [mem_addField]

/-- C9 (amended): the field set computed before execution is the union of the
initial set, the node's declared user fields, `authority` when the node's
authority or a present option's authority threshold is positive, and `usage`
when the `maxUsage` config is a plain finite number or the `minInterval`
config a plain positive number - function-valued thresholds do not count -
and no present option is marked `notUsage`; no other fields are added, and an
absent command leaves the set unchanged. -/
theorem C9_fields (cmd : CmdModel) (opts : List JStr) (fields : List UserField)
    (f : UserField) :
    (f ∈ attachUserFields (some cmd) opts fields ↔
      f ∈ fields ∨ f ∈ cmd.userFields ∨
      (f = .authority ∧ (0 < cmd.config.authority ∨
        cmd.options.any (fun o => optPresent o opts && decide (0 < o.authority)) = true)) ∨
      (f = .usage ∧ numThresholds cmd.config = true ∧
        cmd.options.all (fun o => !(optPresent o opts && o.notUsage)) = true)) ∧
    attachUserFields none opts fields = fields := by
  refine ⟨?_, rfl⟩
  simp only [attachUserFields, optionFieldLoop_spec cmd.options opts]
  rw [mem_ite_addField, mem_ite_addField, mem_foldl_addField]
  by_cases hA : UserField.authority ∈ cmd.userFields.foldl addField fields <;>
    by_cases hU : UserField.usage ∈ cmd.userFields.foldl addField fields <;>
      cases f <;>
        simp_all [mem_foldl_addField] <;>
        tauto

/-- C10: in the no-target appellative branch, the strict-probability field is
assigned twice and the second assignment wins: afterwards `probS` equals
`probabilityAppellative` when given and 1 otherwise, independently of
`probabilityStrict` (whose `?? 0` value is lost), and `probA` is untouched in
that branch. -/
theorem C10_probS_overwrite (kFlag rFlag : Nat) (o : TeachOptions) (d : DialogueData) :
    (beforeModify kFlag rFlag o false true d).probS = o.probabilityAppellative.getD 1 ∧
    (beforeModify kFlag rFlag o false true d).probA = d.probA ∧
    (∀ q : Option Rat,
      (beforeModify kFlag rFlag { o with probabilityStrict := q } false true d).probS =
        o.probabilityAppellative.getD 1) := by
  refine ⟨?_, ?_, fun q => ?_⟩ <;>
    cases hk : o.keyword <;> cases hr : o.redirect <;>
      cases ha : truthyStr o.answer <;> cases hq : truthyStr o.question <;>
        simp [beforeModify, hk, hr, ha, hq]

